import Mathlib

/-!
Verification of `evennia/contrib/convert_gametime.py`.

The module converts between a virtual ("game") clock, advancing at
`TIMEFACTOR` times real time, and real wall-clock time, and provides a
persistent scheduling script that fires when the game clock reaches a
partially-specified target time.

Shallow embedding conventions:
* Python ints are `ℤ`; Python floats produced by true division are `ℚ`
  (the speed factor is modelled as an exact rational).
* Python `//` and `%` on ints are floor division: `Int.fdiv` / `Int.fmod`.
* `int(x)` on a float truncates toward zero: `pytrunc`.
* Code that can raise (`ValueError`, `ZeroDivisionError`, `list.index`)
  returns `Except String _`.
* The module-level globals `TIMEFACTOR` and `UNITS` become explicit
  parameters `tf` and `UNITS` of each function.
-/

deriving instance DecidableEq for Except

namespace ConvertGametime

/-- Python `int(q)` on a rational: truncation toward zero
(the numerator `tdiv` the positive denominator). -/
def pytrunc (q : ℚ) : ℤ :=
  q.num.tdiv q.den

/-- Recursive core of `time_to_tuple`: successive floor division and
remainder through the divisor list, appending the final remainder.
A zero divisor raises `ZeroDivisionError` in Python. -/
def ttt_core : List ℤ → ℤ → Except String (List ℤ)
  | [], s => .ok [s]
  | d :: rest, s =>
    if d = 0 then .error "ZeroDivisionError"
    else
      match ttt_core rest (s.fmod d) with
      | .error e => .error e
      | .ok res => .ok (s.fdiv d :: res)

/-- `time_to_tuple(seconds, *divisors)`: `seconds = int(seconds)` then
successive `//` and `%=` through `divisors`, appending the remainder.  -/
def time_to_tuple (seconds : ℚ) (divisors : List ℤ) : Except String (List ℤ) :=
  ttt_core divisors (pytrunc seconds)

/-- `sum(divisors[i] * units[i] for i in range(len(divisors)))` — the
reconstruction of a seconds count from its per-unit components. -/
def dot : List ℤ → List ℤ → ℤ
  | a :: as, b :: bs => a * b + dot as bs
  | _, _ => 0

/-- Insert into a duplicate-free descending list, keeping it
duplicate-free and descending. -/
def insertSortedDesc (x : ℤ) : List ℤ → List ℤ
  | [] => [x]
  | y :: ys =>
    if x = y then y :: ys
    else if y < x then x :: y :: ys
    else y :: insertSortedDesc x ys

/-- Python `sorted(set(l), reverse=True)`. -/
def distinctSortedDesc (l : List ℤ) : List ℤ :=
  l.foldr insertSortedDesc []

/-- Python `list.index(x)`: index of the first occurrence of `x`, raising
`ValueError` when `x` is absent. -/
def listIndex : List ℤ → ℤ → Except String ℕ
  | [], _ => .error "ValueError"
  | y :: ys, x =>
    if y = x then .ok 0
    else
      match listIndex ys x with
      | .error e => .error e
      | .ok i => .ok (i + 1)

/-- Python `l[i] += 1`. -/
def listIncr (l : List ℤ) (i : ℕ) : List ℤ :=
  l.set i (l.getD i 0 + 1)

/-! ### The unit table -/

/-- `SEC = 1` -/
def SEC : ℤ := 1

/-- `MIN = getattr(settings, "SECS_PER_MIN", 60)` with default settings. -/
def MIN : ℤ := 60

/-- `HOUR = getattr(settings, "MINS_PER_HOUR", 60) * MIN` with defaults. -/
def HOUR : ℤ := 60 * MIN

/-- `DAY = getattr(settings, "HOURS_PER_DAY", 24) * HOUR` with defaults. -/
def DAY : ℤ := 24 * HOUR

/-- `WEEK = getattr(settings, "DAYS_PER_WEEK", 7) * DAY` with defaults. -/
def WEEK : ℤ := 7 * DAY

/-- `MONTH = getattr(settings, "WEEKS_PER_MONTH", 4) * WEEK` with defaults. -/
def MONTH : ℤ := 4 * WEEK

/-- `YEAR = getattr(settings, "MONTHS_PER_YEAR", 12) * MONTH` with defaults. -/
def YEAR : ℤ := 12 * MONTH

/-- The default `UNITS` dict (association list, insertion order). -/
def defaultUnits : List (String × ℤ) :=
  [("sec", SEC), ("min", MIN), ("hr", HOUR), ("hour", HOUR), ("day", DAY),
   ("week", WEEK), ("month", MONTH), ("year", YEAR), ("yr", YEAR)]

/-- The module-level construction of `UNITS`: each chain constant is read
from settings with a default (`SECS_PER_MIN`, `MINS_PER_HOUR`, ...), and
`TIME_UNITS`, when set, replaces the whole table verbatim.  No check of
any kind is performed on the override values. -/
def buildUnits (secs_per_min mins_per_hour hours_per_day days_per_week
    weeks_per_month months_per_year : ℤ)
    (time_units : Option (List (String × ℤ))) : List (String × ℤ) :=
  match time_units with
  | some u => u
  | none =>
    let m := secs_per_min
    let h := mins_per_hour * m
    let d := hours_per_day * h
    let w := days_per_week * d
    let mo := weeks_per_month * w
    let y := months_per_year * mo
    [("sec", 1), ("min", m), ("hr", h), ("hour", h), ("day", d),
     ("week", w), ("month", mo), ("year", y), ("yr", y)]

/-! ### gametime_to_realtime -/

/-- Python `name.endswith("s")`: the last character is `'s'` (written
over the underlying character list so that it evaluates by reduction). -/
def endsWithS (name : String) : Bool :=
  name.data.getLast? == some 's'

/-- The name normalisation at the top of the `gametime_to_realtime` loop:
`if name not in UNITS and name.endswith("s"): name = name[:-1]`. -/
def resolveName (UNITS : List (String × ℤ)) (name : String) : String :=
  if (UNITS.lookup name).isNone && endsWithS name then name.dropRight 1
  else name

/-- The accumulation loop of `gametime_to_realtime`:
`rtime += value * UNITS[name]`, raising `ValueError` on an unknown unit. -/
def gtr_sum (UNITS : List (String × ℤ)) :
    List (String × ℤ) → ℤ → Except String ℤ
  | [], acc => .ok acc
  | (name, value) :: rest, acc =>
    match UNITS.lookup (resolveName UNITS name) with
    | none => .error "unknown unit"
    | some u => gtr_sum UNITS rest (acc + value * u)

/-- `gametime_to_realtime(**kwargs)` with `format=False`:
sum `value * UNITS[name]` over the kwargs, then `rtime /= TIMEFACTOR`. -/
def gametime_to_realtime (tf : ℚ) (UNITS : List (String × ℤ))
    (kwargs : List (String × ℤ)) : Except String ℚ :=
  match gtr_sum UNITS kwargs 0 with
  | .error e => .error e
  | .ok rtime =>
    if tf = 0 then .error "ZeroDivisionError"
    else .ok ((rtime : ℚ) / tf)

/-- The fixed real-world divisor ladder used by the `format=True` branch
of `gametime_to_realtime`: `31536000, 2628000, 604800, 86400, 3600, 60`. -/
def realLadder : List ℤ := [31536000, 2628000, 604800, 86400, 3600, 60]

/-- `gametime_to_realtime(format=True, **kwargs)`: the same real-seconds
value re-expressed through `time_to_tuple` over the fixed real ladder. -/
def gametime_to_realtime_format (tf : ℚ) (UNITS : List (String × ℤ))
    (kwargs : List (String × ℤ)) : Except String (List ℤ) :=
  match gametime_to_realtime tf UNITS kwargs with
  | .error e => .error e
  | .ok rtime => time_to_tuple rtime realLadder

/-! ### real_seconds_until -/

/-- The kwargs loop of `real_seconds_until`: for each `(unit, value)`,
look the unit up in `UNITS` (raising `ValueError` when absent), find its
size's first index in `units`, overwrite `divisors` there, and keep the
smallest index touched as `higher_unit`. -/
def applyKwargs (UNITS : List (String × ℤ)) (units : List ℤ) :
    List (String × ℤ) → List ℤ → Option ℕ →
    Except String (List ℤ × Option ℕ)
  | [], divisors, hu => .ok (divisors, hu)
  | (name, value) :: rest, divisors, hu =>
    match UNITS.lookup name with
    | none => .error "unknown unit"
    | some seconds =>
      match listIndex units seconds with
      | .error e => .error e
      | .ok index =>
        applyKwargs UNITS units rest (divisors.set index value)
          (match hu with
           | none => some index
           | some h => if index < h then some index else some h)

/-- The body of `real_seconds_until(**kwargs)` up to and including the
second `projected` computation — everything before the final division by
the speed factor (the only non-integer step).  The external game clock
reading is passed in as `current` (the spec's
`GameClock.currentAbsoluteGameSeconds()` returns an int).  Mirrors the
source statement by statement: build the distinct descending unit sizes,
drop the smallest, break `current` down, re-append 1, apply the kwargs,
compute the projection, roll over when the projection is not in the
future (`if higher_unit:` is Python truthiness, so both `None` and `0`
take the `divisors[0] += 1` branch), and recompute the projection. -/
def projected_int (UNITS : List (String × ℤ)) (current : ℤ)
    (kwargs : List (String × ℤ)) : Except String ℤ :=
  let units1 := (distinctSortedDesc (UNITS.map Prod.snd)).dropLast
  match time_to_tuple ((current : ℤ) : ℚ) units1 with
  | .error e => .error e
  | .ok divisors =>
    let units := units1 ++ [1]
    match applyKwargs UNITS units kwargs divisors none with
    | .error e => .error e
    | .ok (divisors2, higher_unit) =>
      let projected := dot divisors2 units
      let divisors3 :=
        if projected ≤ current then
          match higher_unit with
          | some h => if h = 0 then listIncr divisors2 0 else listIncr divisors2 (h - 1)
          | none => listIncr divisors2 0
        else divisors2
      .ok (dot divisors3 units)

/-- `real_seconds_until(**kwargs)`: the projected game time computed by
`projected_int`, minus `current`, divided (true division) by the speed
factor — the source's final `return (projected - current) / TIMEFACTOR`. -/
def real_seconds_until (tf : ℚ) (UNITS : List (String × ℤ)) (current : ℤ)
    (kwargs : List (String × ℤ)) : Except String ℚ :=
  match projected_int UNITS current kwargs with
  | .error e => .error e
  | .ok projected2 =>
    if tf = 0 then .error "ZeroDivisionError"
    else .ok (((projected2 - current : ℤ) : ℚ) / tf)

/-! ### The GametimeScript lifecycle -/

/-- The attributes of a `GametimeScript` that its lifecycle hooks touch:
`self.db.gametime` (the stored partial target), `self.interval`, and
`self.db.need_reset`. -/
structure ScriptState where
  gametime : List (String × ℤ)
  interval : ℚ
  need_reset : Bool

/-- `GametimeScript.at_repeat`: fetch the callback, invoke it when set
(any exception it raises propagates — there is no handler around the
call), then recompute the delay from the live clock and restart with it.
The callback slot is modelled as `Option (Unit → Except String Unit)`;
`none` is a falsy `self.db.callback`. -/
def at_repeat (cb : Option (Unit → Except String Unit)) (tf : ℚ)
    (UNITS : List (String × ℤ)) (current : ℤ) (st : ScriptState) :
    Except String ScriptState :=
  match cb with
  | some f =>
    match f () with
    | .error e => .error e
    | .ok _ =>
      match real_seconds_until tf UNITS current st.gametime with
      | .error e => .error e
      | .ok seconds => .ok { st with interval := seconds }
  | none =>
    match real_seconds_until tf UNITS current st.gametime with
    | .error e => .error e
    | .ok seconds => .ok { st with interval := seconds }

/-- `GametimeScript.at_start`: when `self.db.need_reset` is set, clear it
and restart with a freshly computed interval from the live game clock. -/
def at_start (tf : ℚ) (UNITS : List (String × ℤ)) (current : ℤ)
    (st : ScriptState) : Except String ScriptState :=
  if st.need_reset then
    let st1 := { st with need_reset := false }
    match real_seconds_until tf UNITS current st1.gametime with
    | .error e => .error e
    | .ok seconds => .ok { st1 with interval := seconds }
  else .ok st

/-- `GametimeScript.at_server_reload`: mark the script in need of reset. -/
def at_server_reload (st : ScriptState) : ScriptState :=
  { st with need_reset := true }

/-- `GametimeScript.at_server_shutdown`: mark the script in need of reset. -/
def at_server_shutdown (st : ScriptState) : ScriptState :=
  { st with need_reset := true }

/-! ### Derived helper notions used in theorem statements -/

/-- The six distinct default unit sizes, largest first, smallest (1)
removed — the value of `units` after `del units[-1]`. -/
def unitsD1 : List ℤ := [29030400, 2419200, 604800, 86400, 3600, 60]

/-- The default unit-size list with the implicit trailing 1 re-appended —
the value of `units` used for indexing and projection. -/
def unitsD : List ℤ := unitsD1 ++ [1]

/-- Extract the payload of a successful breakdown (used only to state
theorems about runs that are proved to succeed). -/
def okD : Except String (List ℤ) → List ℤ
  | .ok l => l
  | .error _ => []

/-- The per-unit breakdown of an absolute game time over the default
units — the `divisors` list of `real_seconds_until` before the kwargs
loop touches it. -/
def digitsOf (current : ℤ) : List ℤ :=
  okD (ttt_core unitsD1 current)

/-- The naive projection: `current`'s breakdown with the digit at `i`
overwritten by `V`, recombined over the default unit sizes. -/
def naiveProj (current : ℤ) (i : ℕ) (V : ℤ) : ℤ :=
  dot ((digitsOf current).set i V) unitsD

/-! ### Helper lemmas -/

lemma pytrunc_intCast (n : ℤ) : pytrunc ((n : ℤ) : ℚ) = n := by
  simp [pytrunc, Rat.num_intCast, Rat.den_intCast]

lemma ttt_ok (us : List ℤ) (s : ℤ) (h : ∀ d ∈ us, d ≠ 0) :
    ∃ res, ttt_core us s = .ok res := by
  induction us generalizing s with
  | nil => exact ⟨[s], rfl⟩
  | cons d rest ih =>
    have hd : d ≠ 0 := h d (List.mem_cons_self d rest)
    obtain ⟨res, hres⟩ := ih (s.fmod d) (fun x hx => h x (List.mem_cons_of_mem _ hx))
    exact ⟨s.fdiv d :: res, by simp [ttt_core, hd, hres]⟩

lemma ttt_length : ∀ {us : List ℤ} {s : ℤ} {res : List ℤ},
    ttt_core us s = .ok res → res.length = us.length + 1 := by
  intro us
  induction us with
  | nil => intro s res h; simp [ttt_core] at h; simp [← h]
  | cons d rest ih =>
    intro s res h
    by_cases hd : d = 0
    · simp [ttt_core, hd] at h
    · simp only [ttt_core, if_neg hd] at h
      cases hres : ttt_core rest (s.fmod d) with
      | error e => rw [hres] at h; exact absurd h (by simp)
      | ok res2 =>
        rw [hres] at h
        simp only [Except.ok.injEq] at h
        subst h
        simp [ih hres]

lemma ttt_roundtrip : ∀ {us : List ℤ} {s : ℤ} {res : List ℤ},
    ttt_core us s = .ok res → dot res (us ++ [1]) = s := by
  intro us
  induction us with
  | nil =>
    intro s res h
    simp [ttt_core] at h
    simp [← h, dot]
  | cons d rest ih =>
    intro s res h
    by_cases hd : d = 0
    · simp [ttt_core, hd] at h
    · simp only [ttt_core, if_neg hd] at h
      cases hres : ttt_core rest (s.fmod d) with
      | error e => rw [hres] at h; exact absurd h (by simp)
      | ok res2 =>
        rw [hres] at h
        simp only [Except.ok.injEq] at h
        subst h
        have h2 := ih hres
        have key : dot (s.fdiv d :: res2) ((d :: rest) ++ [1]) =
            s.fdiv d * d + dot res2 (rest ++ [1]) := rfl
        rw [key, h2, mul_comm]
        exact Int.fdiv_add_fmod s d

lemma ttt_nonneg : ∀ {us : List ℤ} {s : ℤ} {res : List ℤ},
    ttt_core us s = .ok res → (∀ d ∈ us, 0 < d) → 0 ≤ s →
    ∀ x ∈ res, 0 ≤ x := by
  intro us
  induction us with
  | nil =>
    intro s res h _ hs x hx
    simp [ttt_core] at h
    rw [← h] at hx
    simp at hx
    omega
  | cons d rest ih =>
    intro s res h hpos hs x hx
    have hd : 0 < d := hpos d (List.mem_cons_self d rest)
    have hd0 : d ≠ 0 := by omega
    simp only [ttt_core, if_neg hd0] at h
    cases hres : ttt_core rest (s.fmod d) with
    | error e => rw [hres] at h; exact absurd h (by simp)
    | ok res2 =>
      rw [hres] at h
      simp only [Except.ok.injEq] at h
      subst h
      rcases List.mem_cons.mp hx with hx | hx
      · subst hx
        exact Int.fdiv_nonneg hs (le_of_lt hd)
      · exact ih hres (fun u hu => hpos u (List.mem_cons_of_mem _ hu))
          (Int.fmod_nonneg' s hd) x hx

lemma ttt_tail : ∀ {us : List ℤ} {s : ℤ} {res : List ℤ},
    ttt_core us s = .ok res → (∀ d ∈ us, 0 < d) →
    ∀ i, i < us.length →
      0 ≤ dot (res.drop (i + 1)) ((us ++ [1]).drop (i + 1)) ∧
      dot (res.drop (i + 1)) ((us ++ [1]).drop (i + 1)) < us.getD i 0 := by
  intro us
  induction us with
  | nil => intro s res _ _ i hi; simp at hi
  | cons d rest ih =>
    intro s res h hpos i hi
    have hd : 0 < d := hpos d (List.mem_cons_self d rest)
    have hd0 : d ≠ 0 := by omega
    simp only [ttt_core, if_neg hd0] at h
    cases hres : ttt_core rest (s.fmod d) with
    | error e => rw [hres] at h; exact absurd h (by simp)
    | ok res2 =>
      rw [hres] at h
      simp only [Except.ok.injEq] at h
      subst h
      cases i with
      | zero =>
        have hrt := ttt_roundtrip hres
        simp only [List.cons_append, List.drop_succ_cons, List.drop_zero, List.getD_cons_zero]
        rw [hrt]
        exact ⟨Int.fmod_nonneg' s hd, Int.fmod_lt_of_pos s hd⟩
      | succ j =>
        have hj : j < rest.length := by simpa using hi
        have := ih hres (fun u hu => hpos u (List.mem_cons_of_mem _ hu)) j hj
        simpa [List.cons_append, List.drop_succ_cons, List.getD_cons_succ] using this

lemma dot_set : ∀ (a b : List ℤ) (i : ℕ) (V : ℤ), i < a.length → i < b.length →
    dot (a.set i V) b = dot a b + (V - a.getD i 0) * b.getD i 0
  | x :: as, y :: bs, 0, V, _, _ => by
    simp [dot, List.set]; ring
  | x :: as, y :: bs, i + 1, V, h1, h2 => by
    simp only [List.set_cons_succ, dot, List.getD_cons_succ]
    rw [dot_set as bs i V (by simpa using h1) (by simpa using h2)]
    ring
  | [], _, i, _, h1, _ => absurd h1 (by simp)
  | _ :: _, [], i, _, _, h2 => absurd h2 (by simp)

lemma dot_incr (a b : List ℤ) (i : ℕ) (h1 : i < a.length) (h2 : i < b.length) :
    dot (listIncr a i) b = dot a b + b.getD i 0 := by
  rw [listIncr, dot_set a b i _ h1 h2]
  ring

lemma dot_drop_succ : ∀ (a b : List ℤ) (i : ℕ), i < a.length → i < b.length →
    dot (a.drop i) (b.drop i) =
      a.getD i 0 * b.getD i 0 + dot (a.drop (i + 1)) (b.drop (i + 1))
  | x :: as, y :: bs, 0, _, _ => by
    simp [dot]
  | x :: as, y :: bs, i + 1, h1, h2 => by
    simp only [List.drop_succ_cons, List.getD_cons_succ]
    exact dot_drop_succ as bs i (by simpa using h1) (by simpa using h2)
  | [], _, i, h1, _ => absurd h1 (by simp)
  | _ :: _, [], i, _, h2 => absurd h2 (by simp)

lemma dot_nonneg : ∀ {a b : List ℤ}, (∀ x ∈ a, 0 ≤ x) → (∀ y ∈ b, 0 ≤ y) →
    0 ≤ dot a b
  | x :: as, y :: bs, ha, hb => by
    simp only [dot]
    have h1 : 0 ≤ x * y :=
      mul_nonneg (ha x (List.mem_cons_self x as)) (hb y (List.mem_cons_self y bs))
    have h2 : 0 ≤ dot as bs :=
      dot_nonneg (fun u hu => ha u (List.mem_cons_of_mem _ hu))
        (fun u hu => hb u (List.mem_cons_of_mem _ hu))
    omega
  | [], _, _, _ => by cases ‹List ℤ› <;> simp [dot]
  | _ :: _, [], _, _ => by simp [dot]

lemma listIndex_spec : ∀ {l : List ℤ} {x : ℤ} {i : ℕ},
    listIndex l x = .ok i → i < l.length ∧ l.getD i 0 = x := by
  intro l
  induction l with
  | nil => intro x i h; simp [listIndex] at h
  | cons y ys ih =>
    intro x i h
    by_cases hy : y = x
    · simp only [listIndex, if_pos hy] at h
      simp only [Except.ok.injEq] at h
      subst h
      simp [hy]
    · simp only [listIndex, if_neg hy] at h
      cases hres : listIndex ys x with
      | error e => rw [hres] at h; exact absurd h (by simp)
      | ok j =>
        rw [hres] at h
        simp only [Except.ok.injEq] at h
        subst h
        obtain ⟨hlen, hget⟩ := ih hres
        exact ⟨by simpa using hlen, by simpa using hget⟩

lemma getD_mem_of_lt {l : List ℤ} {j : ℕ} (h : j < l.length) :
    l.getD j 0 ∈ l := by
  rw [List.getD_eq_getElem?_getD, List.getElem?_eq_getElem h]
  exact List.getElem_mem h

lemma getD_append_left {l l' : List ℤ} {j : ℕ} (h : j < l.length) :
    (l ++ l').getD j 0 = l.getD j 0 := by
  rw [List.getD_eq_getElem?_getD, List.getD_eq_getElem?_getD,
    List.getElem?_append, if_pos h]

lemma distinct_default :
    (distinctSortedDesc (defaultUnits.map Prod.snd)).dropLast = unitsD1 := by
  decide

lemma unitsD1_pos : ∀ d ∈ unitsD1, 0 < d := by decide

lemma unitsD1_ne : ∀ d ∈ unitsD1, d ≠ 0 := by decide

lemma unitsD_pos : ∀ d ∈ unitsD, 0 < d := by decide

lemma pytrunc_eq_floor {r : ℚ} (hr : 0 ≤ r) : pytrunc r = ⌊r⌋ := by
  rw [pytrunc, Rat.floor_def]
  have hnum : 0 ≤ r.num := Rat.num_nonneg.mpr hr
  have hden : (0 : ℤ) ≤ (r.den : ℤ) := Int.ofNat_nonneg r.den
  exact Int.tdiv_eq_ediv hnum hden

/-- `real_seconds_until` factored through its integer core: the result is
the core's projected game time minus `current`, divided by the factor. -/
lemma rsu_eq (tf : ℚ) (UNITS : List (String × ℤ)) (current : ℤ)
    (kwargs : List (String × ℤ)) :
    real_seconds_until tf UNITS current kwargs =
      match projected_int UNITS current kwargs with
      | .error e => .error e
      | .ok p2 =>
        if tf = 0 then .error "ZeroDivisionError"
        else .ok (((p2 - current : ℤ) : ℚ) / tf) := rfl

/-- `gametime_to_realtime` factored through its integer accumulation. -/
lemma gtr_eq (tf : ℚ) (UNITS : List (String × ℤ))
    (kwargs : List (String × ℤ)) :
    gametime_to_realtime tf UNITS kwargs =
      match gtr_sum UNITS kwargs 0 with
      | .error e => .error e
      | .ok rtime =>
        if tf = 0 then .error "ZeroDivisionError"
        else .ok ((rtime : ℚ) / tf) := rfl

/-- A concrete script state used to instantiate the lifecycle theorems:
target `min=10`, stored interval 100, flag clear. -/
def stEx : ScriptState :=
  { gametime := [("min", 10)], interval := 100, need_reset := false }

/-! ### Claim theorems -/

/-- C2 (confirmed): `time_to_tuple(s, d1..dn)` returns, for every
non-negative integer `s` and positive divisors, a sequence of length
`n + 1` whose dot product with the divisors (an implicit final divisor 1)
reconstructs `s` exactly. -/
theorem c2_time_to_tuple_roundtrip (s : ℤ) (ds : List ℤ)
    (hs : 0 ≤ s) (hpos : ∀ d ∈ ds, 0 < d) :
    ∃ res, time_to_tuple (s : ℚ) ds = .ok res ∧
      res.length = ds.length + 1 ∧ dot res (ds ++ [1]) = s := by
  obtain ⟨res, hres⟩ := ttt_ok ds s (fun d hd => by have := hpos d hd; omega)
  refine ⟨res, ?_, ttt_length hres, ttt_roundtrip hres⟩
  rw [time_to_tuple, pytrunc_intCast]
  exact hres

/-- Witness for C2 at `s = 100`, divisors `[7, 3]`. -/
theorem c2_witness :
    ∃ res, time_to_tuple ((100 : ℤ) : ℚ) [7, 3] = .ok res ∧
      res.length = [(7 : ℤ), 3].length + 1 ∧ dot res ([7, 3] ++ [1]) = 100 :=
  c2_time_to_tuple_roundtrip 100 [7, 3] (by decide) (by decide)

/-- C7 (corrected) counterexample: `time_to_tuple` is not total for
*every* divisor sequence — a zero divisor raises `ZeroDivisionError`. -/
theorem c7_counterexample :
    time_to_tuple 5 [0] = .error "ZeroDivisionError" := rfl

/-- C7 (corrected): `time_to_tuple` is deterministic (a pure function)
and returns a result for every non-negative `totalSeconds` and every
divisor sequence containing no zero — the divisors need not relate to the
unit table (negative divisors are also accepted). -/
theorem c7_time_to_tuple_total (s : ℚ) (ds : List ℤ) (hs : 0 ≤ s)
    (hnz : ∀ d ∈ ds, d ≠ 0) :
    ∃ res, time_to_tuple s ds = .ok res :=
  ttt_ok ds (pytrunc s) hnz

/-- Witness for C7 at `s = 5`, divisors `[7, -3]` (unrelated to the unit
table, one of them negative). -/
theorem c7_witness : ∃ res, time_to_tuple 5 [7, -3] = .ok res :=
  c7_time_to_tuple_total 5 [7, -3] (by norm_num) (by decide)

/-- C5 (corrected) counterexample: the non-positive override
`SECS_PER_MIN = 0` is accepted without any error — the resulting table
maps `"min"` to `0` and flows through the converter successfully,
contradicting "a configuration violating these constraints is never
accepted". -/
theorem c5_counterexample :
    (buildUnits 0 60 24 7 4 12 none).lookup "min" = some 0 ∧
      gametime_to_realtime 1 (buildUnits 0 60 24 7 4 12 none) [("min", 5)] =
        .ok 0 := by
  refine ⟨rfl, ?_⟩
  rw [gtr_eq]
  have h : gtr_sum (buildUnits 0 60 24 7 4 12 none) [("min", 5)] 0 = .ok 0 := by
    decide
  rw [h]
  norm_num

/-- C5 (corrected): the unit-table construction performs no validation at
all and there is no `ConfigError`: a `TIME_UNITS` override is installed
verbatim whatever it contains, and the chain overrides are multiplied out
as given, with no positivity or ordering check. -/
theorem c5_buildUnits_no_validation (a b c d e f : ℤ)
    (tu : List (String × ℤ)) :
    buildUnits a b c d e f (some tu) = tu ∧
      buildUnits a b c d e f none =
        [("sec", 1), ("min", a), ("hr", b * a), ("hour", b * a),
         ("day", c * (b * a)), ("week", d * (c * (b * a))),
         ("month", e * (d * (c * (b * a)))),
         ("year", f * (e * (d * (c * (b * a))))),
         ("yr", f * (e * (d * (c * (b * a)))))] :=
  ⟨rfl, rfl⟩

/-- C6 (confirmed): with speed factor 2, default units and current game
time 3600 (hour = 1), `real_seconds_until(min=10)` projects game time
4200 and returns (4200 - 3600) / 2 = 300 real seconds. -/
theorem c6_end_to_end :
    real_seconds_until 2 defaultUnits 3600 [("min", 10)] = .ok 300 := by
  rw [rsu_eq]
  have h : projected_int defaultUnits 3600 [("min", 10)] = .ok 4200 := by decide
  rw [h]
  norm_num

/-- C10 (confirmed): the formatted output of `gametime_to_realtime`
re-expresses exactly `int(rtime)` — the truncation toward zero of the
real-seconds value (`pytrunc` is Python `int()`; for a non-negative value
it is the floor) — so any fractional real second produced by the
speed-factor division is silently dropped. -/
theorem c10_format_truncates (tf : ℚ) (UNITS : List (String × ℤ))
    (kwargs : List (String × ℤ)) (r : ℚ) (res : List ℤ)
    (h1 : gametime_to_realtime tf UNITS kwargs = .ok r)
    (h2 : gametime_to_realtime_format tf UNITS kwargs = .ok res) :
    dot res (realLadder ++ [1]) = pytrunc r ∧
      (0 ≤ r → dot res (realLadder ++ [1]) = ⌊r⌋) := by
  simp only [gametime_to_realtime_format, h1] at h2
  rw [time_to_tuple] at h2
  have hrt := ttt_roundtrip h2
  exact ⟨hrt, fun hr => by rw [hrt, pytrunc_eq_floor hr]⟩

/-- Witness for C10: speed factor 2 and `sec=1` give half a real second,
formatted as all zeros — the half second is dropped. -/
theorem c10_witness :
    dot [0, 0, 0, 0, 0, 0, 0] (realLadder ++ [1]) = pytrunc (1 / 2 : ℚ) ∧
      (0 ≤ (1 / 2 : ℚ) →
        dot [0, 0, 0, 0, 0, 0, 0] (realLadder ++ [1]) = ⌊(1 / 2 : ℚ)⌋) :=
  c10_format_truncates 2 defaultUnits [("sec", 1)] (1 / 2)
    [0, 0, 0, 0, 0, 0, 0]
    (by rw [gtr_eq]
        have h : gtr_sum defaultUnits [("sec", 1)] 0 = .ok 1 := by decide
        rw [h]
        norm_num)
    (by have h1 : gametime_to_realtime 2 defaultUnits [("sec", 1)] =
            .ok (1 / 2 : ℚ) := by
          rw [gtr_eq]
          have h : gtr_sum defaultUnits [("sec", 1)] 0 = .ok 1 := by decide
          rw [h]
          norm_num
        simp only [gametime_to_realtime_format, h1]
        rw [time_to_tuple]
        have hp : pytrunc (1 / 2 : ℚ) = 0 := by
          rw [pytrunc_eq_floor (by norm_num)]
          norm_num
        rw [hp]
        decide)

/-- C8 (confirmed): a unit name absent from the table whose singular
(trailing "s" stripped) is present — such as `"mins"` — is accepted by
`gametime_to_realtime`, which behaves exactly as on the singular, while
`real_seconds_until` raises the unknown-unit `ValueError` for the same
name, since it performs no plural stripping. -/
theorem c8_plural_mismatch (name : String) (v current : ℤ) (tf : ℚ)
    (h1 : defaultUnits.lookup name = none)
    (h2 : endsWithS name = true)
    (h3 : (defaultUnits.lookup (name.dropRight 1)).isSome = true)
    (htf : tf ≠ 0) :
    (∃ r, gametime_to_realtime tf defaultUnits [(name, v)] = .ok r ∧
       gametime_to_realtime tf defaultUnits [(name.dropRight 1, v)] = .ok r) ∧
    real_seconds_until tf defaultUnits current [(name, v)] =
      .error "unknown unit" := by
  obtain ⟨u, hu⟩ := Option.isSome_iff_exists.mp h3
  have hres1 : resolveName defaultUnits name = name.dropRight 1 := by
    rw [resolveName, if_pos]
    rw [h1, h2]
    rfl
  have hres2 : resolveName defaultUnits (name.dropRight 1) = name.dropRight 1 := by
    rw [resolveName, if_neg]
    rw [hu]
    simp
  constructor
  · refine ⟨(((v * u : ℤ) : ℚ) / tf), ?_, ?_⟩
    · rw [gtr_eq]
      have h : gtr_sum defaultUnits [(name, v)] 0 = .ok (0 + v * u) := by
        simp only [gtr_sum, hres1, hu]
      rw [h]
      simp only [if_neg htf, zero_add]
    · rw [gtr_eq]
      have h : gtr_sum defaultUnits [(name.dropRight 1, v)] 0 = .ok (0 + v * u) := by
        simp only [gtr_sum, hres2, hu]
      rw [h]
      simp only [if_neg htf, zero_add]
  · obtain ⟨res, hres⟩ := ttt_ok unitsD1 current unitsD1_ne
    have hp : projected_int defaultUnits current [(name, v)] =
        .error "unknown unit" := by
      simp only [projected_int, distinct_default, time_to_tuple,
        pytrunc_intCast, hres, applyKwargs, h1]
    rw [rsu_eq, hp]

/-- Witness for C8 at the name `"mins"`. -/
theorem c8_witness :
    (∃ r, gametime_to_realtime 2 defaultUnits [("mins", 5)] = .ok r ∧
       gametime_to_realtime 2 defaultUnits [("mins".dropRight 1, 5)] = .ok r) ∧
    real_seconds_until 2 defaultUnits 0 [("mins", 5)] =
      .error "unknown unit" :=
  c8_plural_mismatch "mins" 5 0 2 (by decide) (by decide) (by decide)
    (by norm_num)

/-- C3 (corrected) counterexample: when the stored callback raises,
`at_repeat` propagates the error and never reaches the
recompute-and-restart — no re-armed state is produced. -/
theorem c3_counterexample :
    at_repeat (some fun _ => .error "boom") 1 defaultUnits 0 stEx =
      .error "boom" := rfl

/-- C3 (corrected): the callback's error is not swallowed by the core —
it propagates unchanged — but the entry's re-arm does *not* proceed: the
delay recompute and restart run only when the callback is absent or
returns normally. One failing invocation therefore skips the restart. -/
theorem c3_at_repeat (tf : ℚ) (UNITS : List (String × ℤ)) (current : ℤ)
    (st : ScriptState) (f g : Unit → Except String Unit) (e : String)
    (herr : f () = .error e) (hok : g () = .ok ()) :
    at_repeat (some f) tf UNITS current st = .error e ∧
    at_repeat (some g) tf UNITS current st =
      (real_seconds_until tf UNITS current st.gametime).map
        (fun s => { st with interval := s }) := by
  constructor
  · rw [at_repeat, herr]
  · rw [at_repeat, hok]
    cases real_seconds_until tf UNITS current st.gametime <;> rfl

/-- Witness for C3: a raising callback and a normally-returning one. -/
theorem c3_witness :
    at_repeat (some fun _ => .error "crash") 2 defaultUnits 3600 stEx =
      .error "crash" ∧
    at_repeat (some fun _ => .ok ()) 2 defaultUnits 3600 stEx =
      (real_seconds_until 2 defaultUnits 3600 stEx.gametime).map
        (fun s => { stEx with interval := s }) :=
  c3_at_repeat 2 defaultUnits 3600 stEx _ _ "crash" rfl rfl

/-- C4 (confirmed): after `at_server_reload` (or `at_server_shutdown`)
marks the entry, `at_start` recomputes the delay from the live game clock
via `real_seconds_until`, re-arms with that fresh value — whatever
interval was stored before the suspend — and clears the flag. -/
theorem c4_at_start_recompute (tf : ℚ) (UNITS : List (String × ℤ))
    (current : ℤ) (st : ScriptState) (s : ℚ)
    (h : real_seconds_until tf UNITS current st.gametime = .ok s) :
    at_start tf UNITS current (at_server_reload st) =
      .ok { st with need_reset := false, interval := s } ∧
    at_start tf UNITS current (at_server_shutdown st) =
      .ok { st with need_reset := false, interval := s } := by
  constructor <;>
    simp [at_start, at_server_reload, at_server_shutdown, h]

/-- Witness for C4: a suspended entry targeting `min=10` at game time
3600 with a stale interval 100 is re-armed with the fresh delay 300. -/
theorem c4_witness :
    at_start 2 defaultUnits 3600 (at_server_reload stEx) =
      .ok { stEx with need_reset := false, interval := 300 } ∧
    at_start 2 defaultUnits 3600 (at_server_shutdown stEx) =
      .ok { stEx with need_reset := false, interval := 300 } :=
  c4_at_start_recompute 2 defaultUnits 3600 stEx 300
    (by rw [rsu_eq]
        have h : projected_int defaultUnits 3600 stEx.gametime = .ok 4200 := by
          decide
        rw [h]
        norm_num)

/-- C9 (confirmed): with no unit keyword at all, the naive projection is
the current time itself, so `real_seconds_until` always rolls over the
largest configured unit and returns exactly its size (the default YEAR,
29030400 game seconds) divided by the speed factor. -/
theorem c9_empty_rolls_largest (tf : ℚ) (current : ℤ)
    (hc : 0 ≤ current) (htf : tf ≠ 0) :
    real_seconds_until tf defaultUnits current [] =
      .ok ((29030400 : ℚ) / tf) := by
  obtain ⟨res, hres⟩ := ttt_ok unitsD1 current unitsD1_ne
  have hlen : res.length = 7 := by simpa [unitsD1] using ttt_length hres
  have hrt : dot res (unitsD1 ++ [1]) = current := ttt_roundtrip hres
  have hincr : dot (listIncr res 0) (unitsD1 ++ [1]) = current + 29030400 := by
    rw [dot_incr res (unitsD1 ++ [1]) 0 (by omega) (by simp [unitsD1]), hrt]
    rfl
  have hp : projected_int defaultUnits current [] = .ok (current + 29030400) := by
    simp only [projected_int, distinct_default, time_to_tuple,
      pytrunc_intCast, hres, applyKwargs]
    rw [hrt, if_pos (le_refl current), hincr]
  rw [rsu_eq, hp]
  simp only [if_neg htf]
  congr 1
  push_cast
  ring

/-- Witness for C9 at current game time 5 and speed factor 2. -/
theorem c9_witness :
    real_seconds_until 2 defaultUnits 5 [] = .ok ((29030400 : ℚ) / 2) :=
  c9_empty_rolls_largest 2 5 (by norm_num) (by norm_num)

/-- C1 (corrected) counterexample: at current game time 58060800
(year digit 2) with the single target `year = 0` — a case where the
target does not equal the current time — the returned delay is
*negative* (-29030400 real seconds at speed factor 1), refuting "in
every other case it returns a strictly positive delay": incrementing the
largest unit by one cannot reach a year digit that is two or more behind. -/
theorem c1_counterexample :
    real_seconds_until 1 defaultUnits 58060800 [("year", 0)] =
      .ok (-29030400) ∧ ((-29030400 : ℚ) < 0) := by
  constructor
  · rw [rsu_eq]
    have h : projected_int defaultUnits 58060800 [("year", 0)] =
        .ok 29030400 := by decide
    rw [h]
    norm_num
  · norm_num

/-- C1 (corrected): for every `currentGame ≥ 0` and every partial spec
naming a single configured unit with value `V ≥ 0`, *provided the unit is
not the largest one* (its index `i` in the size list is ≥ 1),
`real_seconds_until` returns a strictly positive delay — never 0, even
when the naive target equals `currentGame` exactly (that case rolls over
one next-larger-unit cycle) — and the projected game time it is derived
from is the smallest value *strictly greater* than `currentGame` among
the naive projection (current's breakdown with that unit's digit replaced
by `V`) plus whole multiples of the next-larger unit's size.  (For the
largest unit the delay can be zero or negative, see the counterexample.) -/
theorem c1_single_unit_positive (name : String) (sz V current : ℤ)
    (i : ℕ) (tf : ℚ)
    (hn : defaultUnits.lookup name = some sz)
    (hi : listIndex unitsD sz = .ok i) (hi1 : 1 ≤ i)
    (hV : 0 ≤ V) (hc : 0 ≤ current) (htf : 0 < tf) :
    ∃ q : ℚ, real_seconds_until tf defaultUnits current [(name, V)] = .ok q ∧
      0 < q ∧
      ∃ k : ℕ, k ≤ 1 ∧
        q * tf = ((naiveProj current i V + k * unitsD.getD (i - 1) 0 -
          current : ℤ) : ℚ) ∧
        current < naiveProj current i V + k * unitsD.getD (i - 1) 0 ∧
        ∀ j : ℕ, current < naiveProj current i V + j * unitsD.getD (i - 1) 0 →
          naiveProj current i V + k * unitsD.getD (i - 1) 0 ≤
            naiveProj current i V + j * unitsD.getD (i - 1) 0 := by
  obtain ⟨res, hres⟩ := ttt_ok unitsD1 current unitsD1_ne
  have hUlen : unitsD.length = 7 := rfl
  have hU1len : unitsD1.length = 6 := rfl
  obtain ⟨hiL, hgd⟩ := listIndex_spec hi
  rw [hUlen] at hiL
  have hi0 : ¬(i = 0) := by omega
  have hlen7 : res.length = 7 := by
    have h := ttt_length hres
    rw [hU1len] at h
    omega
  have hdig : digitsOf current = res := by rw [digitsOf, hres]; rfl
  have hrt : dot res unitsD = current := ttt_roundtrip hres
  have hnonneg : ∀ x ∈ res, 0 ≤ x := ttt_nonneg hres unitsD1_pos hc
  have hsz_pos : 0 < sz := by
    rw [← hgd]
    exact unitsD_pos _ (getD_mem_of_lt (by omega))
  have hroll_pos : 0 < unitsD.getD (i - 1) 0 :=
    unitsD_pos _ (getD_mem_of_lt (by omega))
  have hP0 : dot (res.set i V) unitsD = current + (V - res.getD i 0) * sz := by
    rw [dot_set res unitsD i V (by omega) (by omega), hrt, hgd]
  have hnv : naiveProj current i V = dot (res.set i V) unitsD := by
    rw [naiveProj, hdig]
  have htail_lt : dot (res.drop i) (unitsD.drop i) < unitsD.getD (i - 1) 0 := by
    have h1 := (ttt_tail hres unitsD1_pos (i - 1) (by omega)).2
    have h2 : i - 1 + 1 = i := by omega
    rw [h2] at h1
    calc dot (res.drop i) (unitsD.drop i) < unitsD1.getD (i - 1) 0 := h1
      _ = unitsD.getD (i - 1) 0 := (getD_append_left (by omega)).symm
  have hdecomp : dot (res.drop i) (unitsD.drop i) =
      res.getD i 0 * unitsD.getD i 0 +
        dot (res.drop (i + 1)) (unitsD.drop (i + 1)) :=
    dot_drop_succ res unitsD i (by omega) (by omega)
  have htail2 : 0 ≤ dot (res.drop (i + 1)) (unitsD.drop (i + 1)) :=
    dot_nonneg (fun x hx => hnonneg x (List.drop_subset _ _ hx))
      (fun y hy => (unitsD_pos y (List.drop_subset _ _ hy)).le)
  have hdigit_bound : res.getD i 0 * sz < unitsD.getD (i - 1) 0 := by
    rw [← hgd]
    linarith
  have hud : unitsD1 ++ [1] = unitsD := rfl
  have hak : applyKwargs defaultUnits unitsD [(name, V)] res none =
      .ok (res.set i V, some i) := by
    simp only [applyKwargs, hn, hi]
  have hpi_base : projected_int defaultUnits current [(name, V)] =
      .ok (dot (if dot (res.set i V) unitsD ≤ current
                then listIncr (res.set i V) (i - 1)
                else res.set i V) unitsD) := by
    simp only [projected_int, distinct_default, hud, time_to_tuple,
      pytrunc_intCast, hres, hak, if_neg hi0]
  have hsl : (res.set i V).length = 7 := by rw [List.length_set]; exact hlen7
  have hexp : (V - res.getD i 0) * sz = V * sz - res.getD i 0 * sz := by ring
  have hVs : 0 ≤ V * sz := mul_nonneg hV hsz_pos.le
  by_cases hle : dot (res.set i V) unitsD ≤ current
  · -- the naive target has already passed (or is simultaneous): roll over
    rw [if_pos hle] at hpi_base
    have hincr : dot (listIncr (res.set i V) (i - 1)) unitsD =
        dot (res.set i V) unitsD + unitsD.getD (i - 1) 0 :=
      dot_incr _ _ _ (by omega) (by omega)
    rw [hincr] at hpi_base
    have hgap : current - dot (res.set i V) unitsD < unitsD.getD (i - 1) 0 := by
      linarith [hP0, hexp, hdigit_bound, hVs]
    have hfin : real_seconds_until tf defaultUnits current [(name, V)] =
        .ok (((dot (res.set i V) unitsD + unitsD.getD (i - 1) 0 -
          current : ℤ) : ℚ) / tf) := by
      rw [rsu_eq, hpi_base]
      simp only [if_neg htf.ne']
    refine ⟨_, hfin, ?_, 1, le_refl 1, ?_, ?_, ?_⟩
    · apply div_pos _ htf
      have h : (0 : ℤ) < dot (res.set i V) unitsD + unitsD.getD (i - 1) 0 -
          current := by linarith
      exact_mod_cast h
    · rw [div_mul_cancel₀ _ htf.ne', hnv]
      push_cast
      ring
    · rw [hnv]
      push_cast
      linarith
    · intro j hj
      rw [hnv] at hj ⊢
      rcases Nat.eq_zero_or_pos j with hj0 | hj1
      · subst hj0
        simp only [Nat.cast_zero, zero_mul, add_zero] at hj
        exact absurd hj (not_lt.mpr hle)
      · have h1 : (1 : ℤ) ≤ (j : ℤ) := by exact_mod_cast hj1
        have h2 : unitsD.getD (i - 1) 0 ≤ (j : ℤ) * unitsD.getD (i - 1) 0 := by
          nlinarith
        push_cast
        linarith
  · -- the naive target is still ahead: it is used unchanged
    rw [if_neg hle] at hpi_base
    have hlt : current < dot (res.set i V) unitsD := not_le.mp hle
    have hfin : real_seconds_until tf defaultUnits current [(name, V)] =
        .ok (((dot (res.set i V) unitsD - current : ℤ) : ℚ) / tf) := by
      rw [rsu_eq, hpi_base]
      simp only [if_neg htf.ne']
    refine ⟨_, hfin, ?_, 0, Nat.zero_le 1, ?_, ?_, ?_⟩
    · apply div_pos _ htf
      have h : (0 : ℤ) < dot (res.set i V) unitsD - current := by linarith
      exact_mod_cast h
    · rw [div_mul_cancel₀ _ htf.ne', hnv]
      push_cast
      ring
    · rw [hnv]
      push_cast
      linarith
    · intro j hj
      rw [hnv]
      have h : (0 : ℤ) ≤ (j : ℤ) * unitsD.getD (i - 1) 0 :=
        mul_nonneg (Int.ofNat_nonneg j) hroll_pos.le
      push_cast
      linarith

/-- Witness for C1 at the C6 configuration: unit `"min"` (size 60,
index 5), value 10, current game time 3600, speed factor 2. -/
theorem c1_witness :
    ∃ q : ℚ, real_seconds_until 2 defaultUnits 3600 [("min", 10)] = .ok q ∧
      0 < q ∧
      ∃ k : ℕ, k ≤ 1 ∧
        q * 2 = ((naiveProj 3600 5 10 + k * unitsD.getD (5 - 1) 0 -
          3600 : ℤ) : ℚ) ∧
        3600 < naiveProj 3600 5 10 + k * unitsD.getD (5 - 1) 0 ∧
        ∀ j : ℕ, 3600 < naiveProj 3600 5 10 + j * unitsD.getD (5 - 1) 0 →
          naiveProj 3600 5 10 + k * unitsD.getD (5 - 1) 0 ≤
            naiveProj 3600 5 10 + j * unitsD.getD (5 - 1) 0 :=
  c1_single_unit_positive "min" 60 10 3600 5 2 (by decide) (by decide)
    (by decide) (by decide) (by decide) (by norm_num)

end ConvertGametime
